import Mathlib

set_option maxHeartbeats 1000000

namespace MtgaReader

/-- Dynamic values appearing in database cells and in the dictionaries built by
`mtga_reader`: SQL NULL / Python None, integers, strings, nested dictionaries
(ability records, art results) and opaque decoded images. -/
inductive PyVal : Type
  | null
  | int (n : Int)
  | str (s : String)
  | dict (entries : List (String × PyVal))
  | img (n : Nat)

/-- SQL equality of two cell values: NULL compares equal to nothing, and
values of different types compare unequal. -/
def sqlEq : PyVal → PyVal → Bool
  | .int a, .int b => a = b
  | .str a, .str b => a = b
  | _, _ => false

/-- Python dictionary update `d[k] = v`: an existing key keeps its position and
gets the new value, a new key is appended at the end. -/
def dictSet {α : Type} : List (String × α) → String → α → List (String × α)
  | [], k, v => [(k, v)]
  | (k1, v1) :: rest, k, v =>
    if k1 = k then (k, v) :: rest else (k1, v1) :: dictSet rest k v

theorem lookup_dictSet_self {α : Type} (d : List (String × α)) (k : String) (v : α) :
    (dictSet d k v).lookup k = some v := by
  induction d with
  | nil => simp [dictSet, List.lookup]
  | cons hd tl ih =>
    obtain ⟨k1, v1⟩ := hd
    by_cases h : k1 = k
    · simp [dictSet, h, List.lookup]
    · have hne : (k == k1) = false := beq_eq_false_iff_ne.mpr (Ne.symm h)
      simp [dictSet, h, List.lookup, hne, ih]

theorem lookup_dictSet_ne {α : Type} (d : List (String × α)) (k1 k : String) (v : α)
    (h : k1 ≠ k) : (dictSet d k1 v).lookup k = d.lookup k := by
  have hne : (k == k1) = false := beq_eq_false_iff_ne.mpr (Ne.symm h)
  induction d with
  | nil => simp [dictSet, List.lookup, hne]
  | cons hd tl ih =>
    obtain ⟨k2, v2⟩ := hd
    by_cases h2 : k2 = k1
    · subst h2
      simp [dictSet, List.lookup, hne]
    · simp [dictSet, h2, List.lookup, ih]

/-- Keys of an association-list dictionary. -/
def dictKeys {α : Type} (d : List (String × α)) : List String := d.map Prod.fst

theorem mem_dictKeys_dictSet {α : Type} (d : List (String × α)) (k1 k : String) (v : α) :
    k ∈ dictKeys (dictSet d k1 v) ↔ k = k1 ∨ k ∈ dictKeys d := by
  induction d with
  | nil => simp [dictSet, dictKeys]
  | cons hd tl ih =>
    obtain ⟨k2, v2⟩ := hd
    by_cases h2 : k2 = k1
    · subst h2
      simp [dictSet, dictKeys]
    · simp [dictSet, h2, dictKeys] at ih ⊢
      tauto

/-! ### String primitives

Executable models of the Python string operations used by `mtga.py`
(`str.lower`, `str.replace`, `str.split`, the `in` operator, `str.zfill`),
written over the character list of a `String` so that concrete instances
reduce by `rfl`/`decide`. -/

/-- Python `str.lower()` (per-character case folding). -/
def strToLower (s : String) : String := String.mk (s.data.map Char.toLower)

/-- Python `s.replace(c, '')` for a single-character target: removes every
occurrence of the character. -/
def removeAllChar (c : Char) (s : String) : String :=
  String.mk (s.data.filter (fun a => a ≠ c))

/-- Contiguous-substring test on character lists (an empty pattern occurs in
every string, as for Python's `in`). -/
def isInfixL (pat : List Char) : List Char → Bool
  | [] => pat.isEmpty
  | c :: rest => pat.isPrefixOf (c :: rest) || isInfixL pat rest

/-- Python `pat in s` (substring containment). -/
def strContains (s pat : String) : Bool := isInfixL pat.data s.data

/-- Python `s.replace(target, repl)` on character lists: replaces
non-overlapping occurrences left to right.  Structural recursion on a fuel
that bounds the string length (each step consumes at least one character, so
the zero-fuel arm is unreachable when started with `s.length`).  (The Python
corner case of an empty target never arises in the source; here an empty
target leaves the string unchanged.) -/
def replaceFuel (target repl : List Char) : Nat → List Char → List Char
  | _, [] => []
  | 0, s => s
  | fuel + 1, c :: rest =>
    if target ≠ [] ∧ target.isPrefixOf (c :: rest) then
      repl ++ replaceFuel target repl fuel ((c :: rest).drop target.length)
    else c :: replaceFuel target repl fuel rest

/-- Python `s.replace(target, repl)` on `String`. -/
def strReplace (s target repl : String) : String :=
  String.mk (replaceFuel target.data repl.data s.data.length s.data)

/-- Python `s.split(sep)` for a non-empty separator, on character lists:
splits at non-overlapping occurrences of `sep`, left to right, with the same
fuel scheme as `replaceFuel`.  (An empty separator, an error in Python,
yields the one-piece split here.) -/
def splitFuel (sep : List Char) : Nat → List Char → List (List Char)
  | _, [] => [[]]
  | 0, s => [s]
  | fuel + 1, c :: rest =>
    if sep ≠ [] ∧ sep.isPrefixOf (c :: rest) then
      [] :: splitFuel sep fuel ((c :: rest).drop sep.length)
    else
      match splitFuel sep fuel rest with
      | [] => [[c]]
      | a :: tl => (c :: a) :: tl

/-- Python `s.split(sep)` on `String`. -/
def strSplitOn (s sep : String) : List String :=
  (splitFuel sep.data s.data.length s.data).map String.mk

/-- Python `s.zfill(w)`: left-pads with `'0'` to width `w`, keeping a leading
sign character in front of the padding. -/
def zfillStr (s : String) (w : Nat) : String :=
  match s.data with
  | [] => String.mk (List.replicate w '0')
  | c :: rest =>
    if s.length < w then
      if c = '-' ∨ c = '+' then
        String.mk (c :: (List.replicate (w - s.length) '0' ++ rest))
      else String.mk (List.replicate (w - s.length) '0' ++ s.data)
    else s

/-! ### Localization lookup (`_lookup_localization`, `get_card_translation_id`)

The reader's localization state: the name of the active language table
(`self.lang_table`), the optional default table name (`self.default_lang_table`)
and, for each table name, either the table's rows or a query error (an
exception raised by `cursor.execute`, modelling a missing/corrupt table). -/

/-- One row of a `Localizations_<lang>` table. -/
structure LocRow where
  locId : Int
  loc : String
  formatted : Int
  deriving DecidableEq

/-- Localization state of a constructed `mtga_reader`. -/
structure LocDB where
  activeName : String
  defaultName : Option String
  tables : String → Except Unit (List LocRow)

/-- `ORDER BY Formatted DESC LIMIT 1`: the first row, in table order, whose
`Formatted` value is maximal (SQLite's stable descending sort followed by
`LIMIT 1`). -/
def pickBest : List LocRow → Option LocRow
  | [] => none
  | r :: rs =>
    match pickBest rs with
    | none => some r
    | some b => if b.formatted > r.formatted then some b else some r

/-- The rows of a localization table matching `WHERE LocId = ?`. -/
def rowsFor (rows : List LocRow) (text_id : PyVal) : List LocRow :=
  rows.filter (fun r => sqlEq (.int r.locId) text_id)

/-- `_lookup_localization(text_id, table_name)`: runs the `SELECT Loc ... ORDER
BY Formatted DESC LIMIT 1` query and returns the `Loc` of the row, `none` when
no row matches, or the query's error. -/
def lookup_localization (t : Except Unit (List LocRow)) (text_id : PyVal) :
    Except Unit (Option String) :=
  match t with
  | .error e => .error e
  | .ok rows => .ok ((pickBest (rowsFor rows text_id)).map LocRow.loc)

/-- Python truthiness of the value returned by `_lookup_localization`:
`None` and the empty string are falsy. -/
def isTruthyLoc : Option String → Bool
  | none => false
  | some s => s ≠ ""

/-- `get_card_translation_id(text_id)`: `None` passes through; otherwise the
active table is consulted, then (when a distinct default table exists) the
default table, and an identifier that resolves nowhere — or whose lookup
raises — is returned unchanged.  The `try`/`except` wraps both lookups, so an
error in either one jumps straight to `return text_id`. -/
def get_card_translation_id (db : LocDB) (text_id : PyVal) : PyVal :=
  match text_id with
  | .null => .null
  | tid =>
    match lookup_localization (db.tables db.activeName) tid with
    | .error _ => tid
    | .ok translation =>
      if isTruthyLoc translation then .str (translation.getD "")
      else
        match db.defaultName with
        | none => tid
        | some dn =>
          if dn ≠ db.activeName then
            match lookup_localization (db.tables dn) tid with
            | .error _ => tid
            | .ok fallback =>
              if isTruthyLoc fallback then .str (fallback.getD "") else tid
          else tid

/-- Variant following the spec's words rather than the source, for comparison:
"Any database error during either attempt is swallowed and treated as 'not
found'" — i.e. an erroring lookup behaves exactly like a lookup that found no
row, so an error in the active table still falls through to the default
table. -/
def get_card_translation_id_errNotFound (db : LocDB) (text_id : PyVal) : PyVal :=
  match text_id with
  | .null => .null
  | tid =>
    let translation :=
      match lookup_localization (db.tables db.activeName) tid with
      | .error _ => none
      | .ok t => t
    if isTruthyLoc translation then .str (translation.getD "")
    else
      match db.defaultName with
      | none => tid
      | some dn =>
        if dn ≠ db.activeName then
          let fallback :=
            match lookup_localization (db.tables dn) tid with
            | .error _ => none
            | .ok t => t
          if isTruthyLoc fallback then .str (fallback.getD "") else tid
        else tid

/-- Whether a lookup on table `t` yields a truthy translation. -/
def truthyLookup (t : Except Unit (List LocRow)) (tid : PyVal) : Bool :=
  match lookup_localization t tid with
  | .ok (some s) => s ≠ ""
  | _ => false

theorem pickBest_eq_none (l : List LocRow) (h : pickBest l = none) : l = [] := by
  cases l with
  | nil => rfl
  | cons a b =>
    unfold pickBest at h
    cases hq : pickBest b with
    | none => rw [hq] at h; simp at h
    | some c =>
      rw [hq] at h
      dsimp only at h
      by_cases hgt : c.formatted > a.formatted
      · rw [if_pos hgt] at h; simp at h
      · rw [if_neg hgt] at h; simp at h

theorem pickBest_mem (l : List LocRow) : ∀ r : LocRow, pickBest l = some r → r ∈ l := by
  induction l with
  | nil => intro r h; simp [pickBest] at h
  | cons hd tl ih =>
    intro r h
    unfold pickBest at h
    cases hpb : pickBest tl with
    | none =>
      rw [hpb] at h
      have : hd = r := by simpa using h
      simp [← this]
    | some b =>
      rw [hpb] at h
      dsimp only at h
      by_cases hgt : b.formatted > hd.formatted
      · rw [if_pos hgt] at h
        have hb : b = r := by simpa using h
        exact hb ▸ List.mem_cons_of_mem _ (ih b hpb)
      · rw [if_neg hgt] at h
        have : hd = r := by simpa using h
        simp [← this]

theorem pickBest_max (l : List LocRow) : ∀ r : LocRow, pickBest l = some r →
    ∀ x ∈ l, x.formatted ≤ r.formatted := by
  induction l with
  | nil => intro r h; simp [pickBest] at h
  | cons hd tl ih =>
    intro r h x hx
    unfold pickBest at h
    cases hpb : pickBest tl with
    | none =>
      rw [hpb] at h
      have hr : hd = r := by simpa using h
      have htl : tl = [] := pickBest_eq_none tl hpb
      subst htl
      rw [← hr]
      rcases List.mem_cons.mp hx with h1 | h1
      · simp [h1]
      · simp at h1
    | some b =>
      rw [hpb] at h
      dsimp only at h
      by_cases hgt : b.formatted > hd.formatted
      · rw [if_pos hgt] at h
        have hb : b = r := by simpa using h
        rw [← hb]
        rcases List.mem_cons.mp hx with h1 | h1
        · rw [h1]; omega
        · exact ih b hpb x h1
      · rw [if_neg hgt] at h
        have hr : hd = r := by simpa using h
        rw [← hr]
        rcases List.mem_cons.mp hx with h1 | h1
        · simp [h1]
        · have := ih b hpb x h1
          omega

theorem gcti_active_err (db : LocDB) (tid : Int) (h : db.tables db.activeName = .error ()) :
    get_card_translation_id db (.int tid) = .int tid := by
  unfold get_card_translation_id lookup_localization
  rw [h]

theorem gcti_active_ok_truthy (db : LocDB) (tid : Int) (s : String)
    (h : lookup_localization (db.tables db.activeName) (.int tid) = .ok (some s))
    (hs : s ≠ "") : get_card_translation_id db (.int tid) = .str s := by
  unfold get_card_translation_id
  dsimp only
  rw [h]
  simp [isTruthyLoc, hs]

theorem gcti_unresolved (db : LocDB) (tid : Int)
    (h1 : truthyLookup (db.tables db.activeName) (.int tid) = false)
    (h2 : ∀ dn, db.defaultName = some dn → truthyLookup (db.tables dn) (.int tid) = false) :
    get_card_translation_id db (.int tid) = .int tid := by
  unfold get_card_translation_id
  dsimp only
  unfold truthyLookup at h1
  cases hl : lookup_localization (db.tables db.activeName) (.int tid) with
  | error e => rfl
  | ok tr =>
    rw [hl] at h1
    dsimp only at h1 ⊢
    have htr : isTruthyLoc tr = false := by
      cases tr with
      | none => rfl
      | some s => simpa [isTruthyLoc] using h1
    simp only [htr, Bool.false_eq_true, if_false]
    cases hd : db.defaultName with
    | none => rfl
    | some dn =>
      dsimp only
      by_cases hne : dn ≠ db.activeName
      · rw [if_pos hne]
        have h2dn := h2 dn hd
        unfold truthyLookup at h2dn
        cases hl2 : lookup_localization (db.tables dn) (.int tid) with
        | error e => rfl
        | ok fb =>
          rw [hl2] at h2dn
          dsimp only at h2dn ⊢
          have hfb : isTruthyLoc fb = false := by
            cases fb with
            | none => rfl
            | some s => simpa [isTruthyLoc] using h2dn
          simp [hfb]
      · rw [if_neg hne]

/-- Localization table of the spec's scenario: two rows share `LocId = 10`,
the formatted one holding `"Lightning Bolt"`. -/
def scenarioRows : List LocRow :=
  [⟨10, "Lightning Bolt", 1⟩, ⟨10, "lightning bolt", 0⟩]

/-- Reader state for the spec's `LocId = 10` scenario. -/
def scenarioLocDB : LocDB :=
  { activeName := "Localizations_enUS"
    defaultName := some "Localizations_enUS"
    tables := fun n =>
      if n = "Localizations_enUS" then .ok scenarioRows else .error () }

/-- C2 (amended): when the highest-`Formatted` row for the identifier in the
active language table carries non-empty text, `get_card_translation_id`
returns that active-table text (the selected row's `Formatted` is maximal
among the matching rows); in particular the spec's `LocId = 10` scenario
resolves to `"Lightning Bolt"`.  (The claim's unqualified form fails when the
selected active row's text is empty; see the counterexample.) -/
theorem get_card_translation_id_prefers_active :
    (∀ (db : LocDB) (tid : Int) (rows : List LocRow) (r : LocRow),
        db.tables db.activeName = .ok rows →
        pickBest (rowsFor rows (.int tid)) = some r →
        r.loc ≠ "" →
        get_card_translation_id db (.int tid) = .str r.loc ∧
          ∀ x ∈ rowsFor rows (.int tid), x.formatted ≤ r.formatted) ∧
      get_card_translation_id scenarioLocDB (.int 10) = .str "Lightning Bolt" := by
  constructor
  · intro db tid rows r h1 h2 h3
    have hlk : lookup_localization (db.tables db.activeName) (.int tid) = .ok (some r.loc) := by
      simp [lookup_localization, h1, h2]
    exact ⟨gcti_active_ok_truthy db tid r.loc hlk h3, pickBest_max _ r h2⟩
  · rfl

/-- Closed witness for the hypotheses of the C2 theorem at a concrete state. -/
theorem get_card_translation_id_prefers_active_witness :
    get_card_translation_id scenarioLocDB (.int 10) = .str "Lightning Bolt" :=
  (get_card_translation_id_prefers_active.1 scenarioLocDB 10 scenarioRows
    ⟨10, "Lightning Bolt", 1⟩ rfl rfl (by decide)).1

/-- Active-language rows of the C2 counterexample: `LocId = 7` is present, but
its highest-`Formatted` row stores the empty string. -/
def c2ActiveRows : List LocRow := [⟨7, "", 1⟩]

/-- Default-language rows of the C2 counterexample. -/
def c2DefaultRows : List LocRow := [⟨7, "bolt", 0⟩]

/-- Reader state on which the literal C2 claim fails. -/
def c2CounterDB : LocDB :=
  { activeName := "Localizations_enUS"
    defaultName := some "Localizations_frFR"
    tables := fun n =>
      if n = "Localizations_enUS" then .ok c2ActiveRows
      else if n = "Localizations_frFR" then .ok c2DefaultRows
      else .error () }

/-- C2 counterexample: identifier 7 has a row in the active table (whose only
text is `""`), yet the result `"bolt"` is the default table's text — not any
active-table text — refuting "returns the active table's text (never the
default table's)". -/
theorem get_card_translation_id_active_row_not_returned :
    get_card_translation_id c2CounterDB (.int 7) = .str "bolt" ∧
      c2ActiveRows.map LocRow.locId = [7] ∧
      c2ActiveRows.map LocRow.loc = [""] ∧
      c2DefaultRows.map LocRow.loc = ["bolt"] :=
  ⟨rfl, rfl, rfl, rfl⟩

/-- C3 (amended): `get_card_translation_id` is the identity on null input and
on input that resolves truthily in neither consulted table, and a database
error is swallowed — an error in the active-table lookup yields the original
identifier directly (skipping the default-table fallback) rather than
behaving as "not found". -/
theorem get_card_translation_id_identity :
    (∀ db : LocDB, get_card_translation_id db .null = .null) ∧
      (∀ (db : LocDB) (tid : Int),
        truthyLookup (db.tables db.activeName) (.int tid) = false →
        (∀ dn, db.defaultName = some dn → truthyLookup (db.tables dn) (.int tid) = false) →
        get_card_translation_id db (.int tid) = .int tid) ∧
      ∀ (db : LocDB) (tid : Int),
        db.tables db.activeName = .error () →
        get_card_translation_id db (.int tid) = .int tid := by
  refine ⟨fun db => rfl, gcti_unresolved, gcti_active_err⟩

/-- Closed witness for the C3 theorem's hypotheses at a concrete state. -/
theorem get_card_translation_id_identity_witness :
    get_card_translation_id scenarioLocDB (.int 99) = .int 99 :=
  get_card_translation_id_identity.2.1 scenarioLocDB 99 rfl
    (fun dn hdn => by
      have h : "Localizations_enUS" = dn := by simpa [scenarioLocDB] using hdn
      subst h
      rfl)

/-- Reader state of the C3 counterexample: the active table's query errors
while the default table resolves the identifier. -/
def c3CounterDB : LocDB :=
  { activeName := "Localizations_deDE"
    defaultName := some "Localizations_enUS"
    tables := fun n =>
      if n = "Localizations_enUS" then .ok [⟨10, "Bolt", 1⟩] else .error () }

/-- C3 counterexample: an error in the active-table lookup is *not* treated as
"not found" — the code returns the identifier although treating the error as
not-found (the spec's words, `get_card_translation_id_errNotFound`) would
resolve `"Bolt"` from the default table. -/
theorem get_card_translation_id_error_skips_fallback :
    get_card_translation_id c3CounterDB (.int 10) = .int 10 ∧
      get_card_translation_id_errNotFound c3CounterDB (.int 10) = .str "Bolt" :=
  ⟨rfl, rfl⟩

/-- Reader state demonstrating C10's fall-through: the active table's best row
for `LocId = 9` stores the empty string, the default table stores `"Bolt"`. -/
def c10FallDB : LocDB :=
  { activeName := "Localizations_itIT"
    defaultName := some "Localizations_enUS"
    tables := fun n =>
      if n = "Localizations_itIT" then .ok [⟨9, "", 1⟩, ⟨9, "plain", 0⟩]
      else if n = "Localizations_enUS" then .ok [⟨9, "Bolt", 1⟩]
      else .error () }

/-- Reader state where both tables hold only an empty translation. -/
def c10EmptyDB : LocDB :=
  { activeName := "Localizations_itIT"
    defaultName := some "Localizations_enUS"
    tables := fun n =>
      if n = "Localizations_itIT" then .ok [⟨9, "", 1⟩]
      else if n = "Localizations_enUS" then .ok [⟨9, "", 1⟩]
      else .error () }

/-- C10: an empty stored translation is never returned — for integer input the
result is never the empty string — and when the active table's
highest-precedence row is empty the lookup falls through to the default table
(`"Bolt"` here), returning the original identifier if that too yields nothing
truthy. -/
theorem get_card_translation_id_never_empty :
    (∀ (db : LocDB) (tid : Int), get_card_translation_id db (.int tid) ≠ .str "") ∧
      get_card_translation_id c10FallDB (.int 9) = .str "Bolt" ∧
      get_card_translation_id c10EmptyDB (.int 9) = .int 9 := by
  refine ⟨?_, rfl, rfl⟩
  intro db tid
  unfold get_card_translation_id
  dsimp only
  cases hl : lookup_localization (db.tables db.activeName) (.int tid) with
  | error e => simp
  | ok tr =>
    dsimp only
    cases htr : isTruthyLoc tr with
    | true =>
      cases tr with
      | none => simp [isTruthyLoc] at htr
      | some s =>
        have hs : s ≠ "" := by simpa [isTruthyLoc] using htr
        simp [htr, Option.getD, hs]
    | false =>
      simp only [htr, Bool.false_eq_true, if_false]
      cases hd : db.defaultName with
      | none => simp
      | some dn =>
        dsimp only
        by_cases hne : dn ≠ db.activeName
        · rw [if_pos hne]
          cases hl2 : lookup_localization (db.tables dn) (.int tid) with
          | error e => simp
          | ok fb =>
            dsimp only
            cases hfb : isTruthyLoc fb with
            | true =>
              cases fb with
              | none => simp [isTruthyLoc] at hfb
              | some s =>
                have hs : s ≠ "" := by simpa [isTruthyLoc] using hfb
                simp [hfb, Option.getD, hs]
            | false => simp [hfb]
        · rw [if_neg hne]
          simp

/-- Closed witness for the C10 theorem at a concrete state. -/
theorem get_card_translation_id_never_empty_witness :
    get_card_translation_id c10FallDB (.int 9) = .str "Bolt" :=
  get_card_translation_id_never_empty.2.1

/-! ### Sorting (Python `sorted` on strings)

Python compares strings by code point, lexicographically.  `String` order in
the library does not reduce in the kernel, so the comparison and an insertion
sort are defined here directly. -/

/-- Code-point lexicographic `<=` on character lists (Python string order). -/
def strLeL : List Char → List Char → Bool
  | [], _ => true
  | _ :: _, [] => false
  | a :: as, b :: bs =>
    if a.toNat < b.toNat then true
    else if b.toNat < a.toNat then false
    else strLeL as bs

/-- Code-point lexicographic `<=` on strings. -/
def strLe (a b : String) : Bool := strLeL a.data b.data

theorem strLeL_cons (x y : Char) (xs ys : List Char) :
    strLeL (x :: xs) (y :: ys) = true ↔
      x.toNat < y.toNat ∨ (x.toNat = y.toNat ∧ strLeL xs ys = true) := by
  simp only [strLeL]
  by_cases h1 : x.toNat < y.toNat
  · simp [h1]
  · by_cases h2 : y.toNat < x.toNat
    · rw [if_neg h1, if_pos h2]
      constructor
      · intro h; exact absurd h (by decide)
      · rintro (h | ⟨h, h3⟩)
        · exact absurd h h1
        · exact absurd h (by omega)
    · have hxy : x.toNat = y.toNat := by omega
      simp [h1, h2, hxy]

theorem strLeL_total (a b : List Char) : strLeL a b = true ∨ strLeL b a = true := by
  induction a generalizing b with
  | nil => left; rfl
  | cons x xs ih =>
    cases b with
    | nil => right; rfl
    | cons y ys =>
      rw [strLeL_cons, strLeL_cons]
      rcases ih ys with h | h
      · by_cases hxy : x.toNat < y.toNat
        · left; left; exact hxy
        · by_cases hyx : y.toNat < x.toNat
          · right; left; exact hyx
          · left; right; exact ⟨by omega, h⟩
      · by_cases hyx : y.toNat < x.toNat
        · right; left; exact hyx
        · by_cases hxy : x.toNat < y.toNat
          · left; left; exact hxy
          · right; right; exact ⟨by omega, h⟩

theorem strLeL_trans (a b c : List Char) (hab : strLeL a b = true)
    (hbc : strLeL b c = true) : strLeL a c = true := by
  induction a generalizing b c with
  | nil => rfl
  | cons x xs ih =>
    cases b with
    | nil => simp [strLeL] at hab
    | cons y ys =>
      cases c with
      | nil => simp [strLeL] at hbc
      | cons z zs =>
        rw [strLeL_cons] at hab hbc ⊢
        rcases hab with h | ⟨he1, h1⟩
        · rcases hbc with h2 | ⟨he2, _⟩
          · left; omega
          · left; omega
        · rcases hbc with h2 | ⟨he2, h3⟩
          · left; omega
          · right; exact ⟨by omega, ih ys zs h1 h3⟩

theorem strLe_total (a b : String) : strLe a b = true ∨ strLe b a = true :=
  strLeL_total a.data b.data

theorem strLe_trans (a b c : String) (hab : strLe a b = true) (hbc : strLe b c = true) :
    strLe a c = true :=
  strLeL_trans a.data b.data c.data hab hbc

/-- One step of insertion sort with respect to `strLe`. -/
def insertStr (x : String) : List String → List String
  | [] => [x]
  | y :: ys => if strLe x y then x :: y :: ys else y :: insertStr x ys

/-- Python `sorted` on a list of strings (insertion sort by code-point
order; on this total antisymmetric order any correct sort agrees). -/
def sortStrings : List String → List String
  | [] => []
  | x :: xs => insertStr x (sortStrings xs)

theorem perm_insertStr (x : String) (l : List String) :
    List.Perm (insertStr x l) (x :: l) := by
  induction l with
  | nil => exact List.Perm.refl _
  | cons y ys ih =>
    by_cases h : strLe x y
    · simp [insertStr, h]
    · simp only [insertStr, h, Bool.false_eq_true, if_false]
      exact (List.Perm.cons y ih).trans (List.Perm.swap x y ys)

theorem perm_sortStrings (l : List String) : List.Perm (sortStrings l) l := by
  induction l with
  | nil => exact List.Perm.refl _
  | cons x xs ih =>
    exact (perm_insertStr x (sortStrings xs)).trans (List.Perm.cons x ih)

theorem pairwise_insertStr (x : String) (l : List String)
    (h : List.Pairwise (fun a b => strLe a b = true) l) :
    List.Pairwise (fun a b => strLe a b = true) (insertStr x l) := by
  induction l with
  | nil => simp [insertStr]
  | cons y ys ih =>
    rcases List.pairwise_cons.mp h with ⟨hy, hys⟩
    by_cases hxy : strLe x y = true
    · simp only [insertStr, hxy, if_true]
      refine List.pairwise_cons.mpr ⟨?_, h⟩
      intro b hb
      rcases List.mem_cons.mp hb with hb | hb
      · exact hb ▸ hxy
      · exact strLe_trans x y b hxy (hy b hb)
    · simp only [insertStr, hxy, Bool.false_eq_true, if_false]
      refine List.pairwise_cons.mpr ⟨?_, ih hys⟩
      intro b hb
      have hb2 : b ∈ x :: ys := (perm_insertStr x ys).mem_iff.mp hb
      rcases List.mem_cons.mp hb2 with hb2 | hb2
      · subst hb2
        rcases strLe_total b y with ht | ht
        · exact absurd ht hxy
        · exact ht
      · exact hy b hb2

theorem sorted_sortStrings (l : List String) :
    List.Pairwise (fun a b => strLe a b = true) (sortStrings l) := by
  induction l with
  | nil => simp [sortStrings]
  | cons x xs ih => exact pairwise_insertStr x (sortStrings xs) ih

/-! ### Language selection (`set_language`)

`set_language` discovers the `Localizations_%` tables of `CardDatabase`,
normalizes language identifiers, selects the active table, computes the
default table and raises `ValueError` on failure. -/

/-- The inner `normalize(name)`: `name.replace('-', '').replace('_', '').lower()`. -/
def normalize (name : String) : String :=
  strToLower (removeAllChar '_' (removeAllChar '-' name))

/-- `available_langs`: the dict comprehension
`{normalize(name.split('Localizations_')[1]): name for name in available_tables}`,
built in catalog order with Python-dict overwrite semantics.  (Catalog names
all carry the `Localizations_` prefix, so the `[1]` index is total here.) -/
def availableLangs (tables : List String) : List (String × String) :=
  tables.foldl
    (fun d name => dictSet d (normalize ((strSplitOn name "Localizations_").getD 1 "")) name) []

/-- `available_langs.get(normalized_target)`. -/
def matched_table (tables : List String) (lang : String) : Option String :=
  (availableLangs tables).lookup (normalize lang)

/-- `self.default_lang_table`: the normalized-`enUS` table when available,
otherwise the first discovered table. -/
def default_lang_table (tables : List String) : Option String :=
  match (availableLangs tables).lookup (normalize "enUS") with
  | some t => some t
  | none => tables.head?

/-- The `ValueError` message raised for an unavailable language:
`f"Language '{lang}' not available. Options: {', '.join(sorted(available_langs.keys()))}"`. -/
def langOptionsMessage (lang : String) (langs : List (String × String)) : String :=
  "Language '" ++ lang ++ "' not available. Options: " ++
    String.intercalate ", " (sortStrings (dictKeys langs))

/-- `set_language(lang)`: validates the requested language against the
discovered localization tables (`.error` models the raised `ValueError`) and
returns the matched table name. -/
def set_language (tables : List String) (lang : String) : Except String String :=
  let langs := availableLangs tables
  if langs.isEmpty then .error "No localization tables found in CardDatabase."
  else
    match langs.lookup (normalize lang) with
    | some t => .ok t
    | none => .error (langOptionsMessage lang langs)

/-- C4: for a requested language with no match (while at least one
localization table exists) `set_language` raises a validation error whose
message is built from the sorted list of all available normalized language
keys (sorting preserves exactly the key set); requesting `"xx"` against
`{Localizations_enUS, Localizations_jaJP}` produces a message enumerating
`"enus"` and `"jajp"`; and with no localization tables at all construction
fails with the fatal no-tables error. -/
theorem set_language_error_enumerates :
    (∀ (tables : List String) (lang : String),
        (availableLangs tables).isEmpty = false →
        (availableLangs tables).lookup (normalize lang) = none →
        set_language tables lang = .error (langOptionsMessage lang (availableLangs tables)) ∧
          ∀ k, k ∈ sortStrings (dictKeys (availableLangs tables)) ↔
            k ∈ dictKeys (availableLangs tables)) ∧
      set_language ["Localizations_enUS", "Localizations_jaJP"] "xx" =
        .error "Language 'xx' not available. Options: enus, jajp" ∧
      ∀ lang, set_language [] lang = .error "No localization tables found in CardDatabase." := by
  refine ⟨?_, rfl, fun _ => rfl⟩
  intro tables lang h1 h2
  constructor
  · simp only [set_language, h1, h2, Bool.false_eq_true, if_false]
  · intro k
    exact (perm_sortStrings (dictKeys (availableLangs tables))).mem_iff

/-- Closed witness for the C4 theorem's hypotheses at a concrete state. -/
theorem set_language_error_enumerates_witness :
    set_language ["Localizations_enUS", "Localizations_jaJP"] "xx" =
      .error (langOptionsMessage "xx"
        (availableLangs ["Localizations_enUS", "Localizations_jaJP"])) :=
  (set_language_error_enumerates.1 ["Localizations_enUS", "Localizations_jaJP"] "xx"
    rfl rfl).1

/-- C5: language identifiers that normalize identically — differing only in
letter case or hyphen/underscore separators — resolve to the same
localization table, and `"en_us"` against
`{Localizations_enUS, Localizations_jaJP}` selects `Localizations_enUS`. -/
theorem set_language_separator_insensitive :
    (∀ (tables : List String) (l1 l2 : String), normalize l1 = normalize l2 →
        matched_table tables l1 = matched_table tables l2 ∧
          ∀ t, set_language tables l1 = .ok t ↔ set_language tables l2 = .ok t) ∧
      set_language ["Localizations_enUS", "Localizations_jaJP"] "en_us" =
        .ok "Localizations_enUS" := by
  refine ⟨?_, rfl⟩
  intro tables l1 l2 h
  refine ⟨by simp [matched_table, h], ?_⟩
  intro t
  simp only [set_language, h]
  by_cases he : (availableLangs tables).isEmpty
  · simp [he]
  · simp only [he, Bool.false_eq_true, if_false]
    cases hm : List.lookup (normalize l2) (availableLangs tables) with
    | some t2 => simp
    | none => simp

/-- Closed witness for the C5 theorem's hypotheses at a concrete state. -/
theorem set_language_separator_insensitive_witness :
    matched_table ["Localizations_enUS", "Localizations_jaJP"] "en_us" =
      matched_table ["Localizations_enUS", "Localizations_jaJP"] "enUS" :=
  (set_language_separator_insensitive.1 ["Localizations_enUS", "Localizations_jaJP"]
    "en_us" "enUS" rfl).1

/-- A database row, and likewise a Python dict built from one: an ordered
association list of column names / keys to cell values. -/
abbrev Row : Type := List (String × PyVal)

/-! ### Art extraction (`find_card_art_file`)

The filesystem glob and the UnityPy/OpenCV collaborators are external: a
bundle is modelled as the list of its contained assets (container path, asset
type name, opaque decoded image), and `find_card_art_file` is given the list
of matched bundles. -/

/-- One asset of an unpacked bundle: its container path, its type name and its
decoded image (opaque). -/
structure Asset where
  path : String
  typeName : String
  image : Nat
  deriving DecidableEq

/-- The fallback role label `path.split(".")[0].split("_")[-1]`. -/
def suffixLabel (path : String) : String :=
  (strSplitOn ((strSplitOn path ".").headD "") "_").getLastD ""

/-- `find_card_art_file(card_id)`: starts from `{'image': None, 'util': None}`
and, for every image-typed asset of every matched bundle, stores the decoded
image under `'util'` when the path contains `'Util'`, under `'image'` when it
contains `f'{card_id}_AIF.'`, and otherwise under the path's inferred suffix
label (later assets overwrite earlier ones sharing a label). -/
def artStep (card_id : Int) (ret : Row) (a : Asset) : Row :=
  if a.typeName = "Texture2D" ∨ a.typeName = "Sprite" then
    let image := PyVal.img a.image
    let ret1 := if strContains a.path "Util" then dictSet ret "util" image else ret
    if strContains a.path (toString card_id ++ "_AIF.") then dictSet ret1 "image" image
    else dictSet ret1 (suffixLabel a.path) image
  else ret

def find_card_art_file (bundles : List (List Asset)) (card_id : Int) : Row :=
  bundles.foldl (fun ret bundle => bundle.foldl (artStep card_id) ret)
    [("image", PyVal.null), ("util", PyVal.null)]

/-! ### Card lookups (`get_card_abilities`, `get_card_by_id`, `get_card_by_name`) -/

/-- Value of column `k` in a row (SQL column access; a missing column reads as
NULL). -/
def rowGet (row : Row) (k : String) : PyVal := (row.lookup k).getD .null

/-- State of a constructed `mtga_reader` as used by the card lookups: the
localization state, the `Cards` and `Abilities` tables of `CardDatabase`, and
the external filesystem/unpacker collaborator giving the bundles matched for
an art identifier. -/
structure Reader where
  loc : LocDB
  cards : List Row
  abilities : List Row
  assets : Int → List (List Asset)

/-- `get_card_art_by_id(card_id)`: delegates to `find_card_art_file`.  (Art
references are integer cells; no other cell type reaches this call.) -/
def get_card_art_by_id (r : Reader) (v : PyVal) : PyVal :=
  match v with
  | .int n => .dict (find_card_art_file (r.assets n) n)
  | _ => .null

/-- `get_card_abilities(ability_id)`: selects the `Abilities` rows with the
given `Id`, resolves each row's `TextId` in place, and returns the first row,
`None` when there is none; any exception — here a row without a `TextId`
column, raising `KeyError` — makes the whole call return `ability_id`. -/
def get_card_abilities (ldb : LocDB) (abilities : List Row) (ability_id : PyVal) : PyVal :=
  let rows := abilities.filter (fun row => sqlEq (rowGet row "Id") ability_id)
  if rows.all (fun row => (row.lookup "TextId").isSome) then
    match rows.map
        (fun row => dictSet row "TextId" (get_card_translation_id ldb (rowGet row "TextId"))) with
    | [] => .null
    | rec :: _ => .dict rec
  else ability_id

/-- The per-column transformation inside `get_card_by_id`'s row loop: text and
title references are resolved and their key loses the `Id` suffix, ability
references are resolved to ability records, the art reference becomes the
`art` field (extracted only when requested and non-null), and every other
column passes through. -/
def transformEntry (r : Reader) (get_art : Bool) (kv : String × PyVal) : String × PyVal :=
  if strContains kv.1 "TextId" || strContains kv.1 "TitleId" then
    (strToLower (strReplace kv.1 "Id" ""),
      match kv.2 with
      | .null => .null
      | v => get_card_translation_id r.loc v)
  else if strContains kv.1 "AbilityIds" then
    (strToLower (strReplace kv.1 "Id" ""),
      match kv.2 with
      | .null => .null
      | v => get_card_abilities r.loc r.abilities v)
  else if strContains kv.1 "ArtId" then
    ("art",
      match kv.2, get_art with
      | .null, _ => .null
      | v, false => v
      | v, true => get_card_art_by_id r v)
  else kv

/-- One step of the dictionary construction in `get_card_by_id`'s row loop. -/
def transformStep (r : Reader) (get_art : Bool) (tmp : Row) (kv : String × PyVal) : Row :=
  dictSet tmp (transformEntry r get_art kv).1 (transformEntry r get_art kv).2

/-- The dictionary `tmp` built from one fetched row. -/
def transformRow (r : Reader) (get_art : Bool) (row : Row) : Row :=
  row.foldl (transformStep r get_art) []

/-- `get_card_by_id(card_id, get_art)`: fetches at most one `Cards` row by
`GrpId` (`LIMIT 1`), transforms its columns, and returns `None` when no row
matches. -/
def get_card_by_id (r : Reader) (card_id : PyVal) (get_art : Bool) : Option Row :=
  match (r.cards.filter (fun row => sqlEq (rowGet row "GrpId") card_id)).head? with
  | none => none
  | some row => some (transformRow r get_art row)

/-- SQLite `LIKE`, over (pattern, subject) character lists: `%` matches any
sequence, `_` any single character, and other characters compare
case-insensitively (ASCII).  Structural recursion on a fuel bounding the sum
of both lengths. -/
def likeFuel : Nat → List Char → List Char → Bool
  | 0, _, _ => false
  | _ + 1, [], [] => true
  | _ + 1, [], _ :: _ => false
  | fuel + 1, '%' :: ps, s =>
    likeFuel fuel ps s ||
      (match s with
       | [] => false
       | _ :: s2 => likeFuel fuel ('%' :: ps) s2)
  | _ + 1, '_' :: _, [] => false
  | fuel + 1, '_' :: ps, _ :: s2 => likeFuel fuel ps s2
  | _ + 1, _ :: _, [] => false
  | fuel + 1, p :: ps, c :: s2 => (p.toLower = c.toLower) && likeFuel fuel ps s2

/-- `Loc LIKE ?` with the card name as pattern. -/
def sqlLike (s pattern : String) : Bool :=
  likeFuel (pattern.data.length + s.data.length + 1) pattern.data s.data

/-- `get_card_by_name(card_name, limit, get_art)`: resolves the pattern against
the active language table (`LIKE`), selects the `Cards` rows whose `TitleId`
is among the matched `LocId`s — bounded by `LIMIT ?` only when `limit` is
truthy, so `None` and `0` both mean unbounded — and maps `get_card_by_id`
over the matches.  The query is not wrapped in a `try`, so an error on the
active table propagates. -/
def get_card_by_name (r : Reader) (card_name : String) (limit : Option Nat) (get_art : Bool) :
    Except Unit (List (Option Row)) :=
  match r.loc.tables r.loc.activeName with
  | .error e => .error e
  | .ok locRows =>
    let locIds := (locRows.filter (fun lr => sqlLike lr.loc card_name)).map LocRow.locId
    let selected := r.cards.filter (fun row =>
      match rowGet row "TitleId" with
      | .int t => locIds.contains t
      | _ => false)
    let limited :=
      match limit with
      | some n => if n ≠ 0 then selected.take n else selected
      | none => selected
    .ok (limited.map (fun row => get_card_by_id r (rowGet row "GrpId") get_art))

/-- Cell-value classes used in hypotheses: SQL cells are NULL, integers or
strings — never the nested dictionaries or images built later. -/
def isDataCell : PyVal → Bool
  | .dict _ => false
  | .img _ => false
  | _ => true

/-- Bool test for the NULL value. -/
def isNullV : PyVal → Bool
  | .null => true
  | _ => false

/-- A column that reaches the `'ArtId' in key` branch of the row loop: it
contains `ArtId` but none of the earlier-matched reference markers. -/
def isArtKey (k : String) : Bool :=
  !(strContains k "TextId" || strContains k "TitleId") &&
    !(strContains k "AbilityIds") && strContains k "ArtId"

theorem toNat_ofNat_valid (n : Nat) (h : n < 55296) : (Char.ofNat n).toNat = n := by
  unfold Char.ofNat
  rw [dif_pos (Or.inl h)]
  simp [Char.ofNatAux, Char.toNat, UInt32.toNat, UInt32.ofNat']

theorem toLower_ne_G (c : Char) : Char.toLower c ≠ 'G' := by
  intro h
  unfold Char.toLower at h
  by_cases hc : c.toNat ≥ 65 ∧ c.toNat ≤ 90
  · rw [if_pos hc] at h
    have h2 := congrArg Char.toNat h
    rw [toNat_ofNat_valid (c.toNat + 32) (by omega)] at h2
    have h3 : Char.toNat 'G' = 71 := by decide
    omega
  · rw [if_neg hc] at h
    subst h
    have h3 : Char.toNat 'G' = 71 := by decide
    rw [h3] at hc
    omega

theorem strToLower_ne_GrpId (x : String) : strToLower x ≠ "GrpId" := by
  intro h
  have hd : x.data.map Char.toLower = ['G', 'r', 'p', 'I', 'd'] := congrArg String.data h
  cases hx : x.data with
  | nil => rw [hx] at hd; simp at hd
  | cons c cs =>
    rw [hx] at hd
    simp only [List.map_cons] at hd
    exact toLower_ne_G c (List.cons.inj hd).1

theorem transformEntry_pass (r : Reader) (ga : Bool) (kv : String × PyVal)
    (h1 : strContains kv.1 "TextId" = false) (h2 : strContains kv.1 "TitleId" = false)
    (h3 : strContains kv.1 "AbilityIds" = false) (h4 : strContains kv.1 "ArtId" = false) :
    transformEntry r ga kv = kv := by
  unfold transformEntry
  rw [h1, h2, h3, h4]
  simp

/-- A transformed column keyed `GrpId` can only be a passed-through `GrpId`
column: the resolver branches emit lower-cased keys or `art`. -/
theorem transformEntry_key_grpId (r : Reader) (ga : Bool) (kv : String × PyVal)
    (h : (transformEntry r ga kv).1 = "GrpId") : transformEntry r ga kv = kv := by
  unfold transformEntry at h ⊢
  by_cases hb1 : (strContains kv.1 "TextId" || strContains kv.1 "TitleId") = true
  · rw [if_pos hb1] at h
    exact absurd h (strToLower_ne_GrpId _)
  · rw [if_neg hb1] at h ⊢
    by_cases hb2 : strContains kv.1 "AbilityIds" = true
    · rw [if_pos hb2] at h
      exact absurd h (strToLower_ne_GrpId _)
    · rw [if_neg hb2] at h ⊢
      by_cases hb3 : strContains kv.1 "ArtId" = true
      · rw [if_pos hb3] at h
        dsimp only at h
        exact absurd h (by decide)
      · rw [if_neg hb3] at h ⊢

theorem transformEntry_artKey (r : Reader) (ga : Bool) (kv : String × PyVal)
    (h : isArtKey kv.1 = true) : (transformEntry r ga kv).1 = "art" := by
  unfold isArtKey at h
  simp only [Bool.and_eq_true, Bool.not_eq_true', Bool.or_eq_false_iff] at h
  unfold transformEntry
  rw [h.1.1.1, h.1.1.2, h.1.2, h.2]
  simp

theorem transformEntry_artKey_null (r : Reader) (ga : Bool) (kv : String × PyVal)
    (h : isArtKey kv.1 = true) (hv : isNullV kv.2 = true) :
    transformEntry r ga kv = ("art", .null) := by
  unfold isArtKey at h
  simp only [Bool.and_eq_true, Bool.not_eq_true', Bool.or_eq_false_iff] at h
  unfold transformEntry
  rw [h.1.1.1, h.1.1.2, h.1.2, h.2]
  have : kv.2 = .null := by cases hk : kv.2 <;> rw [hk] at hv <;> simp [isNullV] at hv <;> rfl
  rw [this]
  simp

theorem foldl_transformStep_preserve (r : Reader) (ga : Bool) (key : String) (row : Row) :
    ∀ acc : Row, (∀ kv ∈ row, (transformEntry r ga kv).1 ≠ key) →
      (row.foldl (transformStep r ga) acc).lookup key = acc.lookup key := by
  induction row with
  | nil => intro acc _; rfl
  | cons kv rest ih =>
    intro acc hall
    rw [List.foldl_cons, ih _ (fun x hx => hall x (List.mem_cons_of_mem _ hx))]
    exact lookup_dictSet_ne _ _ _ _ (hall kv (List.mem_cons_self _ _))

theorem foldl_transformStep_grpId (r : Reader) (ga : Bool) (row : Row) :
    ∀ acc : Row, (row.map Prod.fst).Nodup → acc.lookup "GrpId" = none →
      (row.foldl (transformStep r ga) acc).lookup "GrpId" = row.lookup "GrpId" := by
  induction row with
  | nil =>
    intro acc _ hacc
    simpa using hacc
  | cons kv rest ih =>
    intro acc hnd hacc
    obtain ⟨k, v⟩ := kv
    rw [List.foldl_cons]
    by_cases hk : k = "GrpId"
    · subst hk
      have hpass : transformEntry r ga ("GrpId", v) = ("GrpId", v) :=
        transformEntry_pass r ga _ rfl rfl rfl rfl
      have hrest : ∀ x ∈ rest, (transformEntry r ga x).1 ≠ "GrpId" := by
        intro x hx hco
        have hkx := transformEntry_key_grpId r ga x hco
        have : x.1 = "GrpId" := by rw [← hkx]; exact hco
        have : "GrpId" ∈ rest.map Prod.fst := this ▸ List.mem_map_of_mem Prod.fst hx
        simp only [List.map_cons, List.nodup_cons] at hnd
        exact hnd.1 this
      rw [foldl_transformStep_preserve r ga "GrpId" rest _ hrest]
      have hstep : transformStep r ga acc ("GrpId", v) = dictSet acc "GrpId" v := by
        simp [transformStep, hpass]
      rw [hstep, lookup_dictSet_self]
      simp [List.lookup]
    · have he2 : (transformEntry r ga (k, v)).1 ≠ "GrpId" := by
        intro hco
        have hkx := transformEntry_key_grpId r ga (k, v) hco
        exact hk (by have : (k, v).1 = "GrpId" := by rw [← hkx]; exact hco
                     exact this)
      have hacc2 : (transformStep r ga acc (k, v)).lookup "GrpId" = none := by
        unfold transformStep
        rw [lookup_dictSet_ne _ _ _ _ he2]
        exact hacc
      simp only [List.map_cons, List.nodup_cons] at hnd
      rw [ih _ hnd.2 hacc2]
      have hne : ("GrpId" == k) = false := beq_eq_false_iff_ne.mpr (Ne.symm hk)
      simp [List.lookup, hne]

theorem lookup_transformRow_grpId (r : Reader) (ga : Bool) (row : Row)
    (hnd : (row.map Prod.fst).Nodup) :
    (transformRow r ga row).lookup "GrpId" = row.lookup "GrpId" :=
  foldl_transformStep_grpId r ga row [] hnd rfl

theorem foldl_transformStep_art (r : Reader) (ga : Bool) (row : Row) :
    ∀ acc : Row,
      (∀ kv ∈ row, (transformEntry r ga kv).1 = "art" → (transformEntry r ga kv).2 = .null) →
      ((∃ kv ∈ row, (transformEntry r ga kv).1 = "art") ∨ acc.lookup "art" = some .null) →
      (row.foldl (transformStep r ga) acc).lookup "art" = some PyVal.null := by
  induction row with
  | nil =>
    intro acc _ hex
    rcases hex with ⟨kv, hkv, _⟩ | hacc
    · simp at hkv
    · simpa using hacc
  | cons kv rest ih =>
    intro acc hall hex
    rw [List.foldl_cons]
    by_cases hk : (transformEntry r ga kv).1 = "art"
    · refine ih _ (fun x hx => hall x (List.mem_cons_of_mem _ hx)) (Or.inr ?_)
      have hv := hall kv (List.mem_cons_self _ _) hk
      unfold transformStep
      rw [hk, hv, lookup_dictSet_self]
    · have hstep : (transformStep r ga acc kv).lookup "art" = acc.lookup "art" := by
        unfold transformStep
        exact lookup_dictSet_ne _ _ _ _ hk
      rcases hex with ⟨x, hx, hxart⟩ | hacc
      · rcases List.mem_cons.mp hx with hh | hh
        · exact absurd (hh ▸ hxart) hk
        · exact ih _ (fun y hy => hall y (List.mem_cons_of_mem _ hy)) (Or.inl ⟨x, hh, hxart⟩)
      · refine ih _ (fun y hy => hall y (List.mem_cons_of_mem _ hy)) (Or.inr ?_)
        rw [hstep]
        exact hacc

theorem sqlEq_null_right (v : PyVal) : sqlEq v .null = false := by
  cases v <;> rfl

theorem sqlEq_int_iff (v : PyVal) (n : Int) : sqlEq v (.int n) = true ↔ v = .int n := by
  cases v <;> simp [sqlEq]

theorem sqlEq_str_iff (v : PyVal) (t : String) : sqlEq v (.str t) = true ↔ v = .str t := by
  cases v <;> simp [sqlEq]

theorem filter_grpId_singleton (cards : List Row) (row : Row) (g : PyVal)
    (hiff : ∀ v, sqlEq v g = true ↔ v = g)
    (hnd : (cards.map (fun x => rowGet x "GrpId")).Nodup)
    (hmem : row ∈ cards) (hg : rowGet row "GrpId" = g) :
    cards.filter (fun x => sqlEq (rowGet x "GrpId") g) = [row] := by
  induction cards with
  | nil => simp at hmem
  | cons hd tl ih =>
    simp only [List.map_cons, List.nodup_cons] at hnd
    rcases List.mem_cons.mp hmem with hh | hh
    · subst hh
      have hcond : sqlEq (rowGet row "GrpId") g = true := (hiff _).mpr hg
      rw [List.filter_cons]
      simp only [hcond, if_true]
      have hnil : tl.filter (fun x => sqlEq (rowGet x "GrpId") g) = [] := by
        rw [List.filter_eq_nil]
        intro x hx hcx
        apply hnd.1
        have hx2 : rowGet x "GrpId" = g := (hiff _).mp hcx
        rw [hg, ← hx2]
        exact List.mem_map_of_mem (fun y => rowGet y "GrpId") hx
      rw [hnil]
    · have hcond : sqlEq (rowGet hd "GrpId") g = false := by
        cases hcf : sqlEq (rowGet hd "GrpId") g with
        | false => rfl
        | true =>
          exfalso
          apply hnd.1
          have hx : rowGet hd "GrpId" = g := (hiff _).mp hcf
          rw [hx, ← hg]
          exact List.mem_map_of_mem (fun y => rowGet y "GrpId") hh
      rw [List.filter_cons]
      simp only [hcond, Bool.false_eq_true, if_false]
      exact ih hnd.2 hh

/-- The `GrpId` of a returned card record (NULL for an absent record). -/
def recordGrpId : Option Row → PyVal
  | none => .null
  | some rec => rowGet rec "GrpId"

/-- Looking a selected row's `GrpId` back up through `get_card_by_id` returns a
record carrying that same `GrpId`. -/
theorem record_grpId_roundtrip (r : Reader) (ga : Bool) (row : Row)
    (hrow : row ∈ r.cards)
    (hkeys : ∀ x ∈ r.cards, (x.map Prod.fst).Nodup)
    (hcell : isDataCell (rowGet row "GrpId") = true)
    (hnd : (r.cards.map (fun x => rowGet x "GrpId")).Nodup) :
    recordGrpId (get_card_by_id r (rowGet row "GrpId") ga) = rowGet row "GrpId" := by
  have main : ∀ g : PyVal, (∀ v, sqlEq v g = true ↔ v = g) → rowGet row "GrpId" = g →
      recordGrpId (get_card_by_id r g ga) = g := by
    intro g hiff hg
    have hfil := filter_grpId_singleton r.cards row g hiff hnd hrow hg
    unfold get_card_by_id
    rw [hfil]
    show recordGrpId (some (transformRow r ga row)) = g
    unfold recordGrpId rowGet
    dsimp only
    rw [lookup_transformRow_grpId r ga row (hkeys row hrow)]
    exact hg
  cases hg : rowGet row "GrpId" with
  | null =>
    have hfil : r.cards.filter (fun x => sqlEq (rowGet x "GrpId") .null) = [] := by
      rw [List.filter_eq_nil]
      intro x _
      simp [sqlEq_null_right]
    unfold get_card_by_id
    rw [hfil]
    rfl
  | int n => exact main (.int n) (fun v => sqlEq_int_iff v n) hg
  | str t => exact main (.str t) (fun v => sqlEq_str_iff v t) hg
  | dict entries => rw [hg] at hcell; simp [isDataCell] at hcell
  | img i => rw [hg] at hcell; simp [isDataCell] at hcell

/-- Records built from a selection of card rows have pairwise distinct
`GrpId`s whenever the `Cards` table's `GrpId` column does. -/
theorem nodup_records (r : Reader) (ga : Bool) (rows : List Row)
    (hsub : rows.Sublist r.cards)
    (hkeys : ∀ x ∈ r.cards, (x.map Prod.fst).Nodup)
    (hcells : ∀ x ∈ r.cards, isDataCell (rowGet x "GrpId") = true)
    (hnd : (r.cards.map (fun x => rowGet x "GrpId")).Nodup) :
    ((rows.map (fun row => get_card_by_id r (rowGet row "GrpId") ga)).map recordGrpId).Nodup := by
  have hmapeq :
      (rows.map (fun row => get_card_by_id r (rowGet row "GrpId") ga)).map recordGrpId =
        rows.map (fun row => rowGet row "GrpId") := by
    rw [List.map_map]
    apply List.map_congr_left
    intro row hrowmem
    have hrowc : row ∈ r.cards := hsub.subset hrowmem
    exact record_grpId_roundtrip r ga row hrowc hkeys (hcells row hrowc) hnd
  rw [hmapeq]
  exact hnd.sublist (hsub.map _)

/-- C1 (amended): with a positive limit N, `get_card_by_name` returns at most
N records, and — whenever the `Cards` table's `GrpId` column is a proper
primary key over data cells and columns are unique — the returned records'
`GrpId`s are pairwise distinct; but limit 0 is falsy in `if limit`, so the
`LIMIT` clause is omitted and limit 0 behaves exactly like no limit, not like
"return nothing". -/
theorem get_card_by_name_limit_distinct :
    (∀ (r : Reader) (name : String) (n : Nat) (ga : Bool) (res : List (Option Row)),
        get_card_by_name r name (some n) ga = .ok res → 0 < n → res.length ≤ n) ∧
      (∀ (r : Reader) (name : String) (ga : Bool),
        get_card_by_name r name (some 0) ga = get_card_by_name r name none ga) ∧
      ∀ (r : Reader) (name : String) (limit : Option Nat) (ga : Bool) (res : List (Option Row)),
        (∀ x ∈ r.cards, (x.map Prod.fst).Nodup) →
        (∀ x ∈ r.cards, isDataCell (rowGet x "GrpId") = true) →
        (r.cards.map (fun x => rowGet x "GrpId")).Nodup →
        get_card_by_name r name limit ga = .ok res →
        (res.map recordGrpId).Nodup := by
  refine ⟨?_, ?_, ?_⟩
  · intro r name n ga res hres hn
    unfold get_card_by_name at hres
    cases ht : r.loc.tables r.loc.activeName with
    | error e => rw [ht] at hres; exact absurd hres (by simp)
    | ok locRows =>
      rw [ht] at hres
      dsimp only at hres
      have h2 := Except.ok.inj hres
      rw [← h2, List.length_map]
      have hne : n ≠ 0 := by omega
      rw [if_pos hne, List.length_take]
      exact min_le_left _ _
  · intro r name ga
    unfold get_card_by_name
    cases ht : r.loc.tables r.loc.activeName with
    | error e => rfl
    | ok locRows => simp
  · intro r name limit ga res hkeys hcells hnd hres
    unfold get_card_by_name at hres
    cases ht : r.loc.tables r.loc.activeName with
    | error e => rw [ht] at hres; exact absurd hres (by simp)
    | ok locRows =>
      rw [ht] at hres
      dsimp only at hres
      have h2 := Except.ok.inj hres
      rw [← h2]
      apply nodup_records r ga _ ?_ hkeys hcells hnd
      cases limit with
      | none => exact List.filter_sublist _
      | some n =>
        dsimp only
        by_cases hn : n ≠ 0
        · rw [if_pos hn]
          exact (List.take_sublist _ _).trans (List.filter_sublist _)
        · rw [if_neg hn]
          exact List.filter_sublist _

/-- Active-language rows of the C1/C6 scenario readers. -/
def c1LocRows : List LocRow := [⟨100, "Bolt", 1⟩]

/-- A reader with one card titled `Bolt` (GrpId 1, TitleId 100). -/
def c1Reader : Reader :=
  { loc :=
      { activeName := "Localizations_enUS"
        defaultName := some "Localizations_enUS"
        tables := fun n => if n = "Localizations_enUS" then .ok c1LocRows else .error () }
    cards := [[("GrpId", .int 1), ("TitleId", .int 100)]]
    abilities := []
    assets := fun _ => [] }

/-- C1 counterexample: with `limit = 0` the claim demands zero records, but
`0` is falsy in `if limit`, so no `LIMIT` clause is added and the one
matching card is returned (a one-element result). -/
theorem get_card_by_name_limit_zero_returns_all :
    get_card_by_name c1Reader "Bolt" (some 0) false =
      .ok [some [("GrpId", PyVal.int 1), ("title", PyVal.str "Bolt")]] := rfl

/-- Closed witness for the C1 theorem's hypotheses at a concrete state. -/
theorem get_card_by_name_limit_distinct_witness :
    ([some [("GrpId", PyVal.int 1), ("title", PyVal.str "Bolt")]] : List (Option Row)).length
        ≤ 1 ∧
      (([some [("GrpId", PyVal.int 1), ("title", PyVal.str "Bolt")]] :
          List (Option Row)).map recordGrpId).Nodup :=
  ⟨get_card_by_name_limit_distinct.1 c1Reader "Bolt" 1 false _ rfl (by decide),
   get_card_by_name_limit_distinct.2.2 c1Reader "Bolt" (some 1) false _
     (by decide) (by decide) (by simp [c1Reader]) rfl⟩

/-- C6: an identifier matching no `Cards` row yields an absent record — the
embedding is a total function, so no error escapes — and a found row whose
art-reference columns are all NULL yields a record whose `art` field is NULL
even when art inclusion is requested (provided only art-reference columns map
to the `art` field, as in the real schema). -/
theorem get_card_by_id_absent_or_null_art :
    (∀ (r : Reader) (cid : PyVal) (ga : Bool),
        (∀ row ∈ r.cards, sqlEq (rowGet row "GrpId") cid = false) →
        get_card_by_id r cid ga = none) ∧
      ∀ (r : Reader) (cid : PyVal) (row : Row),
        (r.cards.filter (fun x => sqlEq (rowGet x "GrpId") cid)).head? = some row →
        (∃ kv ∈ row, isArtKey kv.1 = true) →
        (∀ kv ∈ row, isArtKey kv.1 = true → isNullV kv.2 = true) →
        (∀ kv ∈ row, (transformEntry r true kv).1 = "art" → isArtKey kv.1 = true) →
        (get_card_by_id r cid true).bind (fun rec => rec.lookup "art") = some PyVal.null := by
  constructor
  · intro r cid ga hall
    have hfil : r.cards.filter (fun x => sqlEq (rowGet x "GrpId") cid) = [] := by
      rw [List.filter_eq_nil]
      intro x hx
      simp [hall x hx]
    unfold get_card_by_id
    rw [hfil]
    rfl
  · intro r cid row hhead hex hnull hart
    unfold get_card_by_id
    rw [hhead]
    show (transformRow r true row).lookup "art" = some PyVal.null
    unfold transformRow
    apply foldl_transformStep_art r true row []
    · intro kv hkv hk
      have hak := hart kv hkv hk
      have hte := transformEntry_artKey_null r true kv hak (hnull kv hkv hak)
      rw [hte]
    · left
      obtain ⟨kv, hkv, hak⟩ := hex
      exact ⟨kv, hkv, transformEntry_artKey r true kv hak⟩

/-- A reader with one card (GrpId 2) whose `ArtId` is NULL. -/
def c6Reader : Reader :=
  { loc :=
      { activeName := "Localizations_enUS"
        defaultName := some "Localizations_enUS"
        tables := fun _ => .error () }
    cards := [[("GrpId", .int 2), ("ArtId", .null)]]
    abilities := []
    assets := fun _ => [] }

/-- Closed witness for the C6 theorem's hypotheses at a concrete state. -/
theorem get_card_by_id_absent_or_null_art_witness :
    get_card_by_id c6Reader (.int 99) true = none ∧
      (get_card_by_id c6Reader (.int 2) true).bind (fun rec => rec.lookup "art") =
        some PyVal.null :=
  ⟨get_card_by_id_absent_or_null_art.1 c6Reader (.int 99) true (by decide),
   get_card_by_id_absent_or_null_art.2 c6Reader (.int 2)
     [("GrpId", PyVal.int 2), ("ArtId", PyVal.null)] rfl (by decide) (by decide) (by decide)⟩

/-! ### C7: the keys of an Art Result -/

theorem mem_dictKeys_artStep (cid : Int) (ret : Row) (a : Asset) (k : String)
    (h : k ∈ dictKeys ret) : k ∈ dictKeys (artStep cid ret a) := by
  unfold artStep
  by_cases hty : a.typeName = "Texture2D" ∨ a.typeName = "Sprite"
  · rw [if_pos hty]
    dsimp only
    by_cases hu : strContains a.path "Util" = true
    · rw [if_pos hu]
      by_cases hf : strContains a.path (toString cid ++ "_AIF.") = true
      · rw [if_pos hf]
        exact (mem_dictKeys_dictSet _ _ _ _).mpr
          (Or.inr ((mem_dictKeys_dictSet _ _ _ _).mpr (Or.inr h)))
      · rw [if_neg hf]
        exact (mem_dictKeys_dictSet _ _ _ _).mpr
          (Or.inr ((mem_dictKeys_dictSet _ _ _ _).mpr (Or.inr h)))
    · rw [if_neg hu]
      by_cases hf : strContains a.path (toString cid ++ "_AIF.") = true
      · rw [if_pos hf]
        exact (mem_dictKeys_dictSet _ _ _ _).mpr (Or.inr h)
      · rw [if_neg hf]
        exact (mem_dictKeys_dictSet _ _ _ _).mpr (Or.inr h)
  · rw [if_neg hty]
    exact h

theorem keys_artStep (cid : Int) (ret : Row) (a : Asset) (k : String)
    (h : k ∈ dictKeys (artStep cid ret a)) :
    k ∈ dictKeys ret ∨ k = "util" ∨ k = "image" ∨
      ((a.typeName = "Texture2D" ∨ a.typeName = "Sprite") ∧ k = suffixLabel a.path) := by
  unfold artStep at h
  by_cases hty : a.typeName = "Texture2D" ∨ a.typeName = "Sprite"
  · rw [if_pos hty] at h
    dsimp only at h
    by_cases hu : strContains a.path "Util" = true
    · rw [if_pos hu] at h
      by_cases hf : strContains a.path (toString cid ++ "_AIF.") = true
      · rw [if_pos hf] at h
        rcases (mem_dictKeys_dictSet _ _ _ _).mp h with h2 | h2
        · exact Or.inr (Or.inr (Or.inl h2))
        · rcases (mem_dictKeys_dictSet _ _ _ _).mp h2 with h3 | h3
          · exact Or.inr (Or.inl h3)
          · exact Or.inl h3
      · rw [if_neg hf] at h
        rcases (mem_dictKeys_dictSet _ _ _ _).mp h with h2 | h2
        · exact Or.inr (Or.inr (Or.inr ⟨hty, h2⟩))
        · rcases (mem_dictKeys_dictSet _ _ _ _).mp h2 with h3 | h3
          · exact Or.inr (Or.inl h3)
          · exact Or.inl h3
    · rw [if_neg hu] at h
      by_cases hf : strContains a.path (toString cid ++ "_AIF.") = true
      · rw [if_pos hf] at h
        rcases (mem_dictKeys_dictSet _ _ _ _).mp h with h2 | h2
        · exact Or.inr (Or.inr (Or.inl h2))
        · exact Or.inl h2
      · rw [if_neg hf] at h
        rcases (mem_dictKeys_dictSet _ _ _ _).mp h with h2 | h2
        · exact Or.inr (Or.inr (Or.inr ⟨hty, h2⟩))
        · exact Or.inl h2
  · rw [if_neg hty] at h
    exact Or.inl h

theorem mem_dictKeys_foldl_asset (cid : Int) (bundle : List Asset) :
    ∀ (acc : Row) (k : String), k ∈ dictKeys acc →
      k ∈ dictKeys (bundle.foldl (artStep cid) acc) := by
  induction bundle with
  | nil => intro acc k h; exact h
  | cons a rest ih =>
    intro acc k h
    rw [List.foldl_cons]
    exact ih _ k (mem_dictKeys_artStep cid acc a k h)

theorem keys_foldl_asset (cid : Int) (bundle : List Asset) :
    ∀ (acc : Row) (k : String), k ∈ dictKeys (bundle.foldl (artStep cid) acc) →
      k ∈ dictKeys acc ∨ k = "util" ∨ k = "image" ∨
        ∃ a ∈ bundle, (a.typeName = "Texture2D" ∨ a.typeName = "Sprite") ∧
          k = suffixLabel a.path := by
  induction bundle with
  | nil => intro acc k h; exact Or.inl h
  | cons a rest ih =>
    intro acc k h
    rw [List.foldl_cons] at h
    rcases ih _ k h with h2 | h2 | h2 | ⟨x, hx, hxx⟩
    · rcases keys_artStep cid acc a k h2 with h3 | h3 | h3 | h3
      · exact Or.inl h3
      · exact Or.inr (Or.inl h3)
      · exact Or.inr (Or.inr (Or.inl h3))
      · exact Or.inr (Or.inr (Or.inr ⟨a, List.mem_cons_self _ _, h3⟩))
    · exact Or.inr (Or.inl h2)
    · exact Or.inr (Or.inr (Or.inl h2))
    · exact Or.inr (Or.inr (Or.inr ⟨x, List.mem_cons_of_mem _ hx, hxx⟩))

theorem keys_foldl_bundles (cid : Int) (bundles : List (List Asset)) :
    ∀ (acc : Row) (k : String),
      k ∈ dictKeys (bundles.foldl (fun ret bundle => bundle.foldl (artStep cid) ret) acc) →
      k ∈ dictKeys acc ∨ k = "util" ∨ k = "image" ∨
        ∃ a ∈ bundles.join, (a.typeName = "Texture2D" ∨ a.typeName = "Sprite") ∧
          k = suffixLabel a.path := by
  induction bundles with
  | nil => intro acc k h; exact Or.inl h
  | cons b rest ih =>
    intro acc k h
    rw [List.foldl_cons] at h
    rcases ih _ k h with h2 | h2 | h2 | ⟨x, hx, hxx⟩
    · rcases keys_foldl_asset cid b acc k h2 with h3 | h3 | h3 | ⟨x, hx, hxx⟩
      · exact Or.inl h3
      · exact Or.inr (Or.inl h3)
      · exact Or.inr (Or.inr (Or.inl h3))
      · refine Or.inr (Or.inr (Or.inr ⟨x, ?_, hxx⟩))
        exact List.mem_join.mpr ⟨b, List.mem_cons_self _ _, hx⟩
    · exact Or.inr (Or.inl h2)
    · exact Or.inr (Or.inr (Or.inl h2))
    · refine Or.inr (Or.inr (Or.inr ⟨x, ?_, hxx⟩))
      rcases List.mem_join.mp hx with ⟨b2, hb2, hxb⟩
      exact List.mem_join.mpr ⟨b2, List.mem_cons_of_mem _ hb2, hxb⟩

/-- C7 (amended): an Art Result always carries the fixed keys `image` and
`util` — initialized to null and kept even when no asset fills them — while
every other key present originates from some image-typed asset's inferred
suffix label; inferred roles with no asset are the ones omitted. -/
theorem find_card_art_file_keys :
    (∀ (bundles : List (List Asset)) (cid : Int),
        "image" ∈ dictKeys (find_card_art_file bundles cid) ∧
          "util" ∈ dictKeys (find_card_art_file bundles cid)) ∧
      ∀ (bundles : List (List Asset)) (cid : Int) (k : String),
        k ∈ dictKeys (find_card_art_file bundles cid) →
        k = "image" ∨ k = "util" ∨
          ∃ a ∈ bundles.join, (a.typeName = "Texture2D" ∨ a.typeName = "Sprite") ∧
            k = suffixLabel a.path := by
  constructor
  · intro bundles cid
    unfold find_card_art_file
    have hstep : ∀ (acc : Row) (bundle : List Asset) (k : String), k ∈ dictKeys acc →
        k ∈ dictKeys (bundle.foldl (artStep cid) acc) :=
      fun acc bundle k h => mem_dictKeys_foldl_asset cid bundle acc k h
    have hfold : ∀ (l : List (List Asset)) (acc : Row) (k : String), k ∈ dictKeys acc →
        k ∈ dictKeys (l.foldl (fun ret bundle => bundle.foldl (artStep cid) ret) acc) := by
      intro l
      induction l with
      | nil => intro acc k h; exact h
      | cons b rest ih =>
        intro acc k h
        rw [List.foldl_cons]
        exact ih _ k (hstep acc b k h)
    exact ⟨hfold bundles _ "image" (by decide), hfold bundles _ "util" (by decide)⟩
  · intro bundles cid k h
    unfold find_card_art_file at h
    rcases keys_foldl_bundles cid bundles _ k h with h2 | h2 | h2 | h2
    · simp [dictKeys] at h2
      rcases h2 with h2 | h2
      · exact Or.inl h2
      · exact Or.inr (Or.inl h2)
    · exact Or.inr (Or.inl h2)
    · exact Or.inl h2
    · exact Or.inr (Or.inr h2)

/-- Closed witness for the C7 theorem at a concrete state. -/
theorem find_card_art_file_keys_witness :
    "image" ∈ dictKeys (find_card_art_file [[⟨"b_Card.png", "Texture2D", 7⟩]] 3) ∧
      "util" ∈ dictKeys (find_card_art_file [[⟨"b_Card.png", "Texture2D", 7⟩]] 3) :=
  find_card_art_file_keys.1 [[⟨"b_Card.png", "Texture2D", 7⟩]] 3

/-- C7 counterexample: with no bundles at all, both roles are absent yet the
result still carries the keys `image` and `util`, mapped to null — refuting
"absent roles do not appear as keys of the result". -/
theorem find_card_art_file_empty_keys :
    find_card_art_file [] 5 = [("image", PyVal.null), ("util", PyVal.null)] ∧
      (find_card_art_file [] 5).lookup "image" = some PyVal.null ∧
      (find_card_art_file [] 5).lookup "util" = some PyVal.null :=
  ⟨rfl, rfl, rfl⟩

/-! ### C8: locating art bundles (`glob.glob` in `find_card_art_file`)

`__init__` sets `mtga_assets_dir = os.path.join(root, "MTGA_Data", "Downloads",
"AssetBundle")` and the extractor globs
`f"{self.mtga_assets_dir}{str(card_id).zfill(6)}*.mtga"`.  The path arithmetic
is modelled for POSIX separators, and glob matching for the single-`*`
patterns the code builds (a `*` does not cross a `/`). -/

/-- `os.path.join(a, b)` for a relative second component. -/
def os_path_join (a b : String) : String :=
  if a = "" then b
  else if (("/" : String).data).isSuffixOf a.data then a ++ b
  else a ++ "/" ++ b

/-- `self.mtga_data_dir`. -/
def mtga_data_dir (root : String) : String := os_path_join root "MTGA_Data"

/-- `self.mtga_assets_dir`. -/
def mtga_assets_dir (root : String) : String :=
  os_path_join (os_path_join (mtga_data_dir root) "Downloads") "AssetBundle"

/-- The pattern passed to `glob.glob` by `find_card_art_file` — note that the
assets directory and the padded identifier are concatenated with no path
separator between them. -/
def artGlobPattern (root : String) (card_id : Int) : String :=
  mtga_assets_dir root ++ zfillStr (toString card_id) 6 ++ "*.mtga"

/-- The file-name component after the last `/`. -/
def basenameOf (p : String) : String := (strSplitOn p "/").getLastD ""

/-- The directory component before the last `/`. -/
def dirnameOf (p : String) : String :=
  String.intercalate "/" (strSplitOn p "/").dropLast

/-- Matching of a single-`*` glob component against a file name: the name must
carry the literal prefix before the `*` and the literal suffix after it. -/
def starMatch (pat name : String) : Bool :=
  match strSplitOn pat "*" with
  | [p] => name = p
  | [pre, suf] =>
    pre.data.isPrefixOf name.data && suf.data.isSuffixOf name.data &&
      decide (pre.length + suf.length ≤ name.length)
  | _ => false

/-- `glob.glob(pattern)` membership for the patterns built here: a path
matches when its directory equals the pattern's directory and its file name
matches the pattern's file-name component (`*` does not cross `/`). -/
def globMatches (pattern path : String) : Bool :=
  dirnameOf path = dirnameOf pattern && starMatch (basenameOf pattern) (basenameOf path)

/-- Following the spec's words rather than the source, for comparison:
"bundle files located under the assets subdirectory whose file name begins
with the identifier zero-padded to six digits" (with the `.mtga` suffix the
code's glob demands). -/
def specArtFileMatch (root : String) (card_id : Int) (path : String) : Bool :=
  dirnameOf path = mtga_assets_dir root &&
    (zfillStr (toString card_id) 6).data.isPrefixOf (basenameOf path).data &&
    ((".mtga" : String).data).isSuffixOf path.data

/-- C8: the claim describes files under the `AssetBundle` directory whose
names start with the zero-padded identifier, but the glob pattern is built
without a separator after `mtga_assets_dir`, so it searches the `Downloads`
directory for names starting with `AssetBundle000123` instead: a bundle file
placed as the claim (and the surrounding code's intent) describes is never
matched. -/
theorem art_glob_misses_assets_dir :
    artGlobPattern "/R" 123 = "/R/MTGA_Data/Downloads/AssetBundle000123*.mtga" ∧
      mtga_assets_dir "/R" = "/R/MTGA_Data/Downloads/AssetBundle" ∧
      specArtFileMatch "/R" 123 "/R/MTGA_Data/Downloads/AssetBundle/000123_a.mtga" = true ∧
      globMatches (artGlobPattern "/R" 123)
        "/R/MTGA_Data/Downloads/AssetBundle/000123_a.mtga" = false ∧
      dirnameOf (artGlobPattern "/R" 123) = "/R/MTGA_Data/Downloads" :=
  ⟨rfl, rfl, rfl, rfl, rfl⟩

/-! ### C9: database discovery (`inspect_mtga_db.discover_databases`)

The filesystem is the external collaborator: existence tests, `~`-expansion,
the two glob calls and `Path.resolve` are fields of `FS`; the selection,
suffix filter, de-duplication and sort are the modelled logic. -/

/-- Python `Path.suffix`: the extension of the final path component, non-empty
exactly when the name's last dot is neither its first nor its last
character. -/
def pathSuffix (p : String) : String :=
  let b := (basenameOf p).data
  match ((List.range b.length).filter (fun i => b.get? i = some ('.' : Char))).getLast? with
  | none => ""
  | some i => if 0 < i ∧ i < b.length - 1 then String.mk (b.drop i) else ""

/-- The filesystem collaborator of `discover_databases`. -/
structure FS where
  isFile : String → Bool
  isDir : String → Bool
  expanduser : String → String
  dirGlob : String → Bool → List String
  cwdGlob : String → List String
  resolve : String → String

/-- The `discovered` list built by the first loop: explicit `.mtga` files are
appended as given, directories contribute their sorted glob results
(`**/*.mtga` when recursive, else `*.mtga`), and anything else is treated as
a pattern globbed from the working directory, sorted. -/
def discoveredList (fs : FS) (targets : List String) (recursive : Bool) : List String :=
  targets.foldl
    (fun acc target =>
      let path := fs.expanduser target
      if fs.isFile path ∧ strToLower (pathSuffix path) = ".mtga" then acc ++ [path]
      else if fs.isDir path then acc ++ sortStrings (fs.dirGlob path recursive)
      else acc ++ sortStrings (fs.cwdGlob target))
    []

/-- The second loop: keep `.mtga` paths whose resolved form was not seen
before, remembering resolved forms. -/
def dedupeMtga (fs : FS) : List String → List String → List String
  | _, [] => []
  | seen, p :: rest =>
    if strToLower (pathSuffix p) ≠ ".mtga" then dedupeMtga fs seen rest
    else if fs.resolve p ∈ seen then dedupeMtga fs seen rest
    else p :: dedupeMtga fs (fs.resolve p :: seen) rest

/-- `discover_databases(targets, recursive)`. -/
def discover_databases (fs : FS) (targets : List String) (recursive : Bool) : List String :=
  sortStrings (dedupeMtga fs [] (discoveredList fs targets recursive))

theorem dedupe_resolve_nodup (fs : FS) : ∀ (l seen : List String),
    ((dedupeMtga fs seen l).map fs.resolve).Nodup ∧
      ∀ q ∈ dedupeMtga fs seen l, fs.resolve q ∉ seen := by
  intro l
  induction l with
  | nil => intro seen; exact ⟨List.nodup_nil, by simp [dedupeMtga]⟩
  | cons p rest ih =>
    intro seen
    unfold dedupeMtga
    by_cases h1 : strToLower (pathSuffix p) ≠ ".mtga"
    · rw [if_pos h1]; exact ih seen
    · rw [if_neg h1]
      by_cases h2 : fs.resolve p ∈ seen
      · rw [if_pos h2]; exact ih seen
      · rw [if_neg h2]
        obtain ⟨ihn, ihs⟩ := ih (fs.resolve p :: seen)
        constructor
        · simp only [List.map_cons, List.nodup_cons]
          refine ⟨?_, ihn⟩
          intro hmem
          rcases List.mem_map.mp hmem with ⟨q, hq, hqe⟩
          exact (ihs q hq) (hqe ▸ List.mem_cons_self _ _)
        · intro q hq
          rcases List.mem_cons.mp hq with hh | hh
          · subst hh; exact h2
          · intro hcon
            exact (ihs q hh) (List.mem_cons_of_mem _ hcon)

theorem dedupe_covers (fs : FS) : ∀ (l seen : List String) (p : String),
    p ∈ l → strToLower (pathSuffix p) = ".mtga" →
    fs.resolve p ∈ seen ∨ ∃ q ∈ dedupeMtga fs seen l, fs.resolve q = fs.resolve p := by
  intro l
  induction l with
  | nil => intro seen p hp; simp at hp
  | cons x rest ih =>
    intro seen p hp hsuf
    unfold dedupeMtga
    rcases List.mem_cons.mp hp with hh | hh
    · subst hh
      rw [if_neg (by simp [hsuf])]
      by_cases h2 : fs.resolve p ∈ seen
      · rw [if_pos h2]; exact Or.inl h2
      · rw [if_neg h2]
        exact Or.inr ⟨p, List.mem_cons_self _ _, rfl⟩
    · by_cases h1 : strToLower (pathSuffix x) ≠ ".mtga"
      · rw [if_pos h1]; exact ih seen p hh hsuf
      · rw [if_neg h1]
        by_cases h2 : fs.resolve x ∈ seen
        · rw [if_pos h2]; exact ih seen p hh hsuf
        · rw [if_neg h2]
          rcases ih (fs.resolve x :: seen) p hh hsuf with h3 | ⟨q, hq, hqe⟩
          · rcases List.mem_cons.mp h3 with h4 | h4
            · exact Or.inr ⟨x, List.mem_cons_self _ _, h4.symm⟩
            · exact Or.inl h4
          · exact Or.inr ⟨q, List.mem_cons_of_mem _ hq, hqe⟩

theorem dedupe_sub (fs : FS) : ∀ (l seen : List String),
    ∀ q ∈ dedupeMtga fs seen l, q ∈ l ∧ strToLower (pathSuffix q) = ".mtga" := by
  intro l
  induction l with
  | nil => intro seen q hq; simp [dedupeMtga] at hq
  | cons x rest ih =>
    intro seen q hq
    unfold dedupeMtga at hq
    by_cases h1 : strToLower (pathSuffix x) ≠ ".mtga"
    · rw [if_pos h1] at hq
      obtain ⟨ha, hb⟩ := ih seen q hq
      exact ⟨List.mem_cons_of_mem _ ha, hb⟩
    · rw [if_neg h1] at hq
      by_cases h2 : fs.resolve x ∈ seen
      · rw [if_pos h2] at hq
        obtain ⟨ha, hb⟩ := ih seen q hq
        exact ⟨List.mem_cons_of_mem _ ha, hb⟩
      · rw [if_neg h2] at hq
        rcases List.mem_cons.mp hq with hh | hh
        · subst hh
          exact ⟨List.mem_cons_self _ _, not_not.mp h1⟩
        · obtain ⟨ha, hb⟩ := ih _ q hh
          exact ⟨List.mem_cons_of_mem _ ha, hb⟩

/-- C9: `discover_databases` returns a list sorted by code-point order whose
entries resolve to pairwise distinct absolute paths; every discovered `.mtga`
path is represented exactly once up to resolution, and everything returned is
a discovered `.mtga` path. -/
theorem discover_databases_unique_sorted (fs : FS) (targets : List String) (recursive : Bool) :
    List.Pairwise (fun a b => strLe a b = true) (discover_databases fs targets recursive) ∧
      ((discover_databases fs targets recursive).map fs.resolve).Nodup ∧
      (∀ p ∈ discoveredList fs targets recursive, strToLower (pathSuffix p) = ".mtga" →
        ∃ q ∈ discover_databases fs targets recursive, fs.resolve q = fs.resolve p) ∧
      ∀ q ∈ discover_databases fs targets recursive,
        q ∈ discoveredList fs targets recursive ∧ strToLower (pathSuffix q) = ".mtga" := by
  unfold discover_databases
  refine ⟨sorted_sortStrings _, ?_, ?_, ?_⟩
  · exact ((perm_sortStrings (dedupeMtga fs [] (discoveredList fs targets recursive))).map
      fs.resolve).nodup_iff.mpr (dedupe_resolve_nodup fs _ []).1
  · intro p hp hsuf
    rcases dedupe_covers fs (discoveredList fs targets recursive) [] p hp hsuf with h | ⟨q, hq, hqe⟩
    · simp at h
    · exact ⟨q, (perm_sortStrings _).mem_iff.mpr hq, hqe⟩
  · intro q hq
    exact dedupe_sub fs (discoveredList fs targets recursive) [] q
      ((perm_sortStrings _).mem_iff.mp hq)

/-- A tiny filesystem with two database files, the first reachable twice. -/
def fsEx : FS :=
  { isFile := fun p => p == "/db/a.mtga" || p == "/db/b.mtga"
    isDir := fun _ => false
    expanduser := fun p => p
    dirGlob := fun _ _ => []
    cwdGlob := fun _ => []
    resolve := fun p => p }

/-- Closed witness for the C9 theorem at a concrete state: a duplicated
target appears once, in sorted order. -/
theorem discover_databases_unique_sorted_witness :
    discover_databases fsEx ["/db/b.mtga", "/db/a.mtga", "/db/b.mtga"] false =
        ["/db/a.mtga", "/db/b.mtga"] ∧
      ((discover_databases fsEx ["/db/b.mtga", "/db/a.mtga", "/db/b.mtga"] false).map
          fsEx.resolve).Nodup :=
  ⟨rfl,
   (discover_databases_unique_sorted fsEx ["/db/b.mtga", "/db/a.mtga", "/db/b.mtga"]
      false).2.1⟩

end MtgaReader
